import Mathlib

/-!
Verification of the release-notes pipeline (tag resolution, commit range
extraction, diff extraction and truncation, prompt building, chunk planning,
staged summarization) as implemented in `src/lib.ts` and the action entry
point.  JavaScript strings are modelled as Lean `String` (one `Char` per
JS character), JS arrays as `List`, and the external `git` / summarizer
calls as explicit inputs (a `GitEnv` record of query results, a stream of
model responses).  Fallible external calls are modelled with `Except`.
-/

set_option maxRecDepth 40000

/-- Decidable equality for `Except`, so that concrete runs of the
fallible operations can be checked by evaluation. -/
instance instDecEqExcept {e a : Type} [DecidableEq e] [DecidableEq a] :
    DecidableEq (Except e a)
  | .ok x, .ok y => decidable_of_iff (x = y) (by simp)
  | .error x, .error y => decidable_of_iff (x = y) (by simp)
  | .ok _, .error _ => isFalse (by simp)
  | .error _, .ok _ => isFalse (by simp)

namespace Scribe

/-- JS `s.slice(0, n)` for `n ≥ 0`: the first `n` characters. -/
def slice0 (s : String) (n : Nat) : String :=
  String.mk (s.data.take n)

/-- JS `Array.prototype.join(sep)`. -/
def joinSep (sep : String) : List String → String
  | [] => ""
  | [x] => x
  | x :: y :: rest => x ++ sep ++ joinSep sep (y :: rest)

/-- Split a character list at every occurrence of the character `sep`
(JS `String.prototype.split` with a one-character separator). -/
def splitChar (sep : Char) : List Char → List (List Char)
  | [] => [[]]
  | c :: rest =>
    if c = sep then [] :: splitChar sep rest
    else
      match splitChar sep rest with
      | [] => [[c]]
      | g :: gs => (c :: g) :: gs

/-- JS `s.split("\n")`. -/
def splitLines (s : String) : List String :=
  (splitChar '\n' s.data).map String.mk

/-- JS `s.split("\t")`. -/
def splitTabs (s : String) : List String :=
  (splitChar '\t' s.data).map String.mk

/-- Split a character list at every (non-overlapping, left-to-right)
occurrence of `"=>"` (JS `String.prototype.split("=>")`). -/
def splitArrow : List Char → List (List Char)
  | [] => [[]]
  | '=' :: '>' :: rest => [] :: splitArrow rest
  | c :: rest =>
    match splitArrow rest with
    | [] => [[c]]
    | g :: gs => (c :: g) :: gs

/-- JS `s.split("=>")`. -/
def splitArrowStr (s : String) : List String :=
  (splitArrow s.data).map String.mk

/-- JS `s.trim()`: strip leading and trailing whitespace. -/
def jsTrim (s : String) : String :=
  String.mk (((s.data.dropWhile Char.isWhitespace).reverse.dropWhile Char.isWhitespace).reverse)

/-- JS `s.startsWith(pre)`. -/
def startsWithStr (s pre : String) : Bool :=
  decide (s.data.take pre.data.length = pre.data)

/-- JS `s.endsWith(suf)`. -/
def endsWithStr (s suf : String) : Bool :=
  decide (s.data.reverse.take suf.data.length = suf.data.reverse)

/-- The per-commit record `{ sha, message, diffLines }` (`CommitData` in `lib.ts`). -/
structure CommitData where
  sha : String
  message : String
  diffLines : List String
deriving DecidableEq, Repr

/-- Function `formatCommitBlock` from `lib.ts`: renders one commit as a text block. -/
def formatCommitBlock (commit : CommitData) : String :=
  let diffLines := if commit.diffLines = [] then ["(No diff content available)"] else commit.diffLines
  let diffText := joinSep "\n" (diffLines.map (fun line => "- " ++ line))
  joinSep "\n"
    [ "Commit " ++ slice0 commit.sha 7
    , "The following changes had this commit message:"
    , commit.message
    , ""
    , "The changes in this commit were:"
    , diffText ]

/-- Function `trimText` from the action entry point: truncate to `maxLength`
characters, with a three-character ellipsis when it fits. -/
def trimText (text : String) (maxLength : Nat) : String :=
  if text.length ≤ maxLength then text
  else if maxLength ≤ 3 then slice0 text maxLength
  else slice0 text (maxLength - 3) ++ "..."

/-- The warning emitted by `truncateCommit` for a reduced commit. -/
def truncateNoticeFor (sha : String) : String :=
  "Commit " ++ slice0 sha 7 ++ " truncated to fit prompt budget."

/-- The `while (block.length > maxChars && diffLines.length)` loop of
`truncateCommit`, recursing on the reversed diff-line list (popping the
last line is taking the tail of the reverse).  Returns the remaining
lines (in original order) and the number of pop iterations. -/
def dropLoop (sha message : String) (maxChars : Nat) : List String → List String × Nat
  | [] => ([], 0)
  | x :: rest =>
    if maxChars < (formatCommitBlock ⟨sha, message, (x :: rest).reverse⟩).length then
      let r := dropLoop sha message maxChars rest
      (r.1, r.2 + 1)
    else ((x :: rest).reverse, 0)

/-- The first reduction step of `truncateCommit`: truncate the message to
`Math.max(200, Math.floor(maxChars / 4))` when it is longer. -/
def truncMsg1 (commit : CommitData) (maxChars : Nat) : String :=
  let maxMessageLength := max 200 (maxChars / 4)
  if maxMessageLength < commit.message.length then trimText commit.message maxMessageLength
  else commit.message

/-- The diff-drop loop of `truncateCommit`, run after the message step:
the remaining diff lines and the number of pops. -/
def truncDropped (commit : CommitData) (maxChars : Nat) : List String × Nat :=
  dropLoop commit.sha (truncMsg1 commit maxChars) maxChars commit.diffLines.reverse

/-- Function `truncateCommit` from the action entry point: progressively reduce a
commit whose block exceeds the budget, returning the reduced record and
the warnings emitted. -/
def truncateCommit (commit : CommitData) (maxChars : Nat) : CommitData × List String :=
  let message1 := truncMsg1 commit maxChars
  let dl := truncDropped commit maxChars
  let block := formatCommitBlock ⟨commit.sha, message1, dl.1⟩
  let dropAll := maxChars < block.length ∧ dl.1 ≠ []
  let finalTrim := maxChars < block.length
  let message2 := if finalTrim then trimText message1 (max 50 (maxChars - 200)) else message1
  let diffLines3 := if finalTrim then [] else if dropAll then [] else dl.1
  let changed := (max 200 (maxChars / 4) < commit.message.length) ∨ dl.2 ≠ 0 ∨ dropAll ∨ finalTrim
  (⟨commit.sha, message2, diffLines3⟩, if changed then [truncateNoticeFor commit.sha] else [])

/-- The candidate computed for each commit in `chunkCommits`: the commit
itself, or its truncation when its block exceeds the budget. -/
def chunkCandidate (maxChars : Nat) (commit : CommitData) : CommitData × List String :=
  if maxChars < (formatCommitBlock commit).length then truncateCommit commit maxChars
  else (commit, [])

/-- The packing loop of `chunkCommits`, carrying the current chunk and its
running size (`currentSize`). -/
def chunkGo (maxChars : Nat) : List CommitData → List CommitData → Nat →
    List (List CommitData) × List String
  | [], current, _ => (if current = [] then [] else [current], [])
  | commit :: rest, current, currentSize =>
    let cw := chunkCandidate maxChars commit
    let block := formatCommitBlock cw.1
    if current ≠ [] ∧ maxChars < currentSize + block.length + 2 then
      let r := chunkGo maxChars rest [cw.1] (block.length + 2)
      (current :: r.1, cw.2 ++ r.2)
    else
      let r := chunkGo maxChars rest (current ++ [cw.1]) (currentSize + block.length + 2)
      (r.1, cw.2 ++ r.2)

/-- Function `chunkCommits` from the action entry point: greedily pack commit
records into ordered chunks under the character budget. -/
def chunkCommits (commits : List CommitData) (maxChars : Nat) :
    List (List CommitData) × List String :=
  chunkGo maxChars commits [] 0

/-- Constant `MAX_LINE_LENGTH` from `lib.ts`. -/
def MAX_LINE_LENGTH : Nat := 300

/-- The per-line truncation applied to kept diff content lines in
`extractDiffLines`: lines longer than `MAX_LINE_LENGTH` become their
first `MAX_LINE_LENGTH - 3` characters followed by `"..."`. -/
def trimDiffLine (line : String) : String :=
  if MAX_LINE_LENGTH < line.length then slice0 line (MAX_LINE_LENGTH - 3) ++ "..."
  else line

/-- The entry `extractDiffLines` stores for a kept diff content line:
the trimmed line, prefixed with `"<currentFile>: "` when a file header
has set a current file. -/
def contentEntry (currentFile line : String) : String :=
  if currentFile ≠ "" then currentFile ++ ": " ++ trimDiffLine line else trimDiffLine line

/-- The entry stored for a `Binary files ...` diff line (untrimmed). -/
def binaryEntry (currentFile line : String) : String :=
  if currentFile ≠ "" then currentFile ++ ": " ++ line else line

/-- JS `line.replace(/\r$/, "")`: drop one trailing carriage return. -/
def stripCR (line : String) : String :=
  if endsWithStr line "\r" then String.mk line.data.dropLast else line

/-- The lazy regex `/^diff --git a\/(.+?) b\/(.+)$/` applied after the
`"diff --git a/"` literal: find the earliest split `g1 ++ " b/" ++ g2`
with `g1` and `g2` non-empty, returning `g2`. -/
def headerSplit : List Char → List Char → Option (List Char)
  | _, [] => none
  | g1, c :: rest =>
    match c :: rest with
    | ' ' :: 'b' :: '/' :: g2 =>
      if g1 ≠ [] ∧ g2 ≠ [] then some g2
      else headerSplit (g1 ++ [c]) rest
    | _ => headerSplit (g1 ++ [c]) rest

/-- The expression `match?.[2] ?? match?.[1] ?? ""` for a `diff --git ` header line: the
path named by the header, or `""` when the regex does not match. -/
def headerFile (line : String) : String :=
  if startsWithStr line "diff --git a/" then
    match headerSplit [] (line.data.drop "diff --git a/".length) with
    | some g2 => String.mk g2
    | none => ""
  else ""

/-- One step of the `extractDiffLines` loop body applied to already
stripped line text, given the current file, inclusion flag and results:
returns the new state and whether the iteration reached the trailing
`results.length >= maxLines` break check (`continue` skips it). -/
def diffLineStep (allowedPaths : Option (List String)) (currentFile : String)
    (includeFile : Bool) (results : List String) (line : String) :
    String × Bool × List String × Bool :=
  if startsWithStr line "diff --git " then
    let cf := headerFile line
    let inc := match allowedPaths with
      | some paths => paths.contains cf
      | none => true
    (cf, inc, results, false)
  else if !includeFile then
    (currentFile, includeFile, results, false)
  else if startsWithStr line "+++ " ∨ startsWithStr line "--- " ∨ startsWithStr line "@@"
      ∨ startsWithStr line "\\ No newline" then
    (currentFile, includeFile, results, false)
  else if startsWithStr line "Binary files " then
    (currentFile, includeFile, results ++ [binaryEntry currentFile line], true)
  else if startsWithStr line "+" ∨ startsWithStr line "-" then
    if startsWithStr line "+++" ∨ startsWithStr line "---" then
      (currentFile, includeFile, results, false)
    else
      (currentFile, includeFile, results ++ [contentEntry currentFile line], true)
  else
    (currentFile, includeFile, results, true)

/-- The line loop of `extractDiffLines` over the split diff text. -/
def extractDiffGo (allowedPaths : Option (List String)) (maxLines : Nat) :
    List String → String → Bool → List String → List String
  | [], _, _, results => results
  | rawLine :: rest, currentFile, includeFile, results =>
    let s := diffLineStep allowedPaths currentFile includeFile results (stripCR rawLine)
    if s.2.2.2 ∧ maxLines ≤ s.2.2.1.length then s.2.2.1
    else extractDiffGo allowedPaths maxLines rest s.1 s.2.1 s.2.2.1

/-- Function `formatFileStatus` from `lib.ts`. -/
def formatFileStatus (status : String) : String :=
  if startsWithStr status "R" then "renamed"
  else if startsWithStr status "C" then "copied"
  else if status = "A" then "added"
  else if status = "M" then "modified"
  else if status = "D" then "deleted"
  else status

/-- The line loop of `fallbackFileChanges` over the name-status output. -/
def fallbackGo (maxLines : Nat) : List String → List String → List String
  | [], results => results
  | line :: rest, results =>
    if jsTrim line = "" then fallbackGo maxLines rest results
    else
      let parts := splitTabs line
      let status := parts.headD ""
      let filePath := joinSep "\t" (parts.drop 1)
      if filePath = "" then fallbackGo maxLines rest results
      else
        let results := results ++ [filePath ++ ": " ++ formatFileStatus status]
        if maxLines ≤ results.length then results
        else fallbackGo maxLines rest results

/-- Function `fallbackFileChanges` from `lib.ts`: a name-status listing of the
commit's files.  The `git show --name-status` query result is an input;
its failure propagates (the call is not marked tolerant). -/
def fallbackFileChanges (nameStatus : Except String String) (maxLines : Nat) :
    Except String (List String) := do
  let output ← nameStatus
  if output = "" then return []
  return fallbackGo maxLines (splitLines output) []

/-- Function `extractDiffLines` from `lib.ts`: keep added/removed content lines of
the diff (file headers, hunk markers stripped), each path-prefixed and
length-trimmed, falling back to the name-status listing when no line
survives. -/
def extractDiffLines (diff : String) (maxLines : Nat)
    (nameStatus : Except String String) (allowedPaths : Option (List String)) :
    Except String (List String) :=
  let results := extractDiffGo allowedPaths maxLines (splitLines diff) "" true []
  if results = [] then fallbackFileChanges nameStatus maxLines
  else .ok results

/-- Per-file classification record (`FileStat` in `lib.ts`). -/
structure FileStat where
  path : String
  isBinary : Bool
  isSource : Bool
deriving DecidableEq, Repr

/-- The left brace character, `\x7b`. -/
def lbrace : Char := Char.ofNat 123

/-- The right brace character, `\x7d`. -/
def rbrace : Char := Char.ofNat 125

/-- Function `normalizePath` from `lib.ts`: for rename/copy notation take the part
after the last `"=>"`, trimmed, with brace characters removed. -/
def normalizePath (path : String) : String :=
  let parts := splitArrowStr path
  if parts.length ≤ 1 then path
  else
    let candidate := jsTrim (parts.getLastD path)
    String.mk (candidate.data.filter (fun c => c ≠ lbrace ∧ c ≠ rbrace))

/-- JS `s.toLowerCase()`, per character. -/
def lowerStr (s : String) : String :=
  String.mk (s.data.map Char.toLower)

/-- The extension `normalized.slice(dotIndex)` of a path: the last `"."`
and everything after it, or `none` when the path has no dot. -/
def extOf (s : String) : Option String :=
  let r := s.data.reverse
  if '.' ∈ r then some (String.mk ('.' :: (r.takeWhile (fun c => c ≠ '.')).reverse))
  else none

/-- Function `isSourcePath` from `lib.ts`. -/
def isSourcePath (path : String) (extensions : List String) : Bool :=
  match extOf (lowerStr (normalizePath path)) with
  | none => false
  | some ext => extensions.contains ext

/-- Constant `DEFAULT_SOURCE_EXTENSIONS` from `lib.ts`. -/
def DEFAULT_SOURCE_EXTENSIONS : List String :=
  [".ts", ".tsx", ".js", ".jsx", ".mjs", ".cjs", ".py", ".go", ".rs", ".java",
   ".kt", ".kts", ".swift", ".cs", ".cpp", ".c", ".h", ".hpp", ".m", ".mm",
   ".rb", ".php", ".scala", ".lua", ".sh", ".ps1", ".pl", ".r", ".dart",
   ".sql", ".hs", ".clj", ".cljs", ".erl", ".ex", ".exs"]

/-- The line loop of `getFileStats` over the `--numstat` output. -/
def fileStatsGo (extensions : List String) : List String → List FileStat → List FileStat
  | [], stats => stats
  | line :: rest, stats =>
    if jsTrim line = "" then fileStatsGo extensions rest stats
    else
      let parts := splitTabs line
      let additions := parts.headD ""
      let deletions := parts.getD 1 ""
      let rawPath := joinSep "\t" (parts.drop 2)
      if rawPath = "" then fileStatsGo extensions rest stats
      else
        let path := normalizePath rawPath
        let isBinary := additions = "-" ∨ deletions = "-"
        let isSource := ¬isBinary ∧ isSourcePath path extensions
        fileStatsGo extensions rest (stats ++ [⟨path, isBinary, isSource⟩])

/-- Function `getFileStats` from `lib.ts`, applied to the `git show --numstat`
query result for the commit. -/
def getFileStats (numstatOutput : String) (extensions : List String) : List FileStat :=
  if numstatOutput = "" then []
  else fileStatsGo extensions (splitLines numstatOutput) []

/-- Function `summarizeNonSource` from `lib.ts`. -/
def summarizeNonSource (file : FileStat) : String :=
  if file.isBinary then file.path ++ ": binary change (diff omitted)"
  else file.path ++ ": non-source change (diff omitted)"

/-- Function `summarizeSource` from `lib.ts`. -/
def summarizeSource (path : String) : String :=
  path ++ ": source change (diff omitted)"

/-- The `git` query results `buildCommitData` consumes for each sha.  The
message and numstat queries are modelled as plain results (their failure
aborts the run by design); the diff and name-status queries, whose
failures the diff extraction is required to tolerate, are `Except`. -/
structure GitEnv where
  messageOut : String → String
  numstatOut : String → String
  diffResult : String → Except String String
  nameStatusResult : String → Except String String

/-- The source paths of a commit, as `buildCommitData` computes them. -/
def sourcePathsOf (env : GitEnv) (extensions : List String) (sha : String) : List String :=
  ((getFileStats (env.numstatOut sha) extensions).filter (fun f => f.isSource)).map
    (fun f => f.path)

/-- The non-source/binary one-line summaries of a commit, as
`buildCommitData` computes them. -/
def nonSourceEntriesOf (env : GitEnv) (extensions : List String) (sha : String) : List String :=
  ((getFileStats (env.numstatOut sha) extensions).filter (fun f => ¬f.isSource)).map
    summarizeNonSource

/-- The body of the `shas.map` in `buildCommitData`: build one commit
record, returning it with the warnings logged for it. -/
def buildOneCommit (env : GitEnv) (maxDiffLines : Nat) (extensions : List String)
    (sha : String) : CommitData × List String :=
  let message := jsTrim (env.messageOut sha)
  let sourcePaths := sourcePathsOf env extensions sha
  let nonSourceEntries := nonSourceEntriesOf env extensions sha
  let extractRes : Except String (List String) :=
    match env.diffResult sha with
    | .error e => .error e
    | .ok diff => extractDiffLines diff maxDiffLines (env.nameStatusResult sha) (some sourcePaths)
  let dlw : List String × List String :=
    if sourcePaths = [] then ([], [])
    else
      match extractRes with
      | .ok lines => (lines, [])
      | .error e =>
        ((sourcePaths.take maxDiffLines).map summarizeSource,
         ["Failed to read diff for " ++ slice0 sha 7 ++ ": " ++ e ++
          ". Falling back to file summary."])
  (⟨sha,
    if message = "" then "(no commit message)" else message,
    (dlw.1 ++ nonSourceEntries).take maxDiffLines⟩,
   dlw.2)

/-- Function `buildCommitData` from `lib.ts`: one record per sha, with the
warnings logged along the way. -/
def buildCommitData (env : GitEnv) (shas : List String) (maxDiffLines : Nat)
    (extensions : List String) : List CommitData × List String :=
  ((shas.map (buildOneCommit env maxDiffLines extensions)).map Prod.fst,
   ((shas.map (buildOneCommit env maxDiffLines extensions)).map Prod.snd).flatten)

/-- Function `resolvePreviousTag` from `lib.ts`, over the tag list returned by
`listTags` (creation-date descending) and the result of the override
`rev-parse` existence probe.  Returns the resolved previous tag or the
`""` sentinel, with the info messages logged. -/
def resolvePreviousTag (currentTag override : String) (overrideExists : Bool)
    (tags : List String) : Except String String × List String :=
  if override ≠ "" then
    (if overrideExists then .ok override
     else .error ("Override previous tag " ++ override ++ " not found. Ensure tags are fetched."),
     [])
  else if tags = [] then
    (.error "No tags found locally. Ensure actions/checkout uses fetch-depth: 0.", [])
  else
    let index := tags.indexOf currentTag
    if index = tags.length then
      (.error ("Tag " ++ currentTag ++ " not found in local tag list. Ensure tags are fetched."),
       [])
    else if tags.length ≤ index + 1 then
      (.ok "", ["No previous tag found; comparing against the empty tree."])
    else
      (.ok (tags.getD (index + 1) ""), [])

/-- The parse of the `git log --reverse --pretty=format:%H` output in
`getCommitShas`: split on newlines, trim, drop empty lines. -/
def parseCommitList (output : String) : List String :=
  ((splitLines output).map (fun sha => jsTrim sha)).filter (fun sha => sha ≠ "")

/-- Function `getCommitShas` from `lib.ts`, over the `git log` query output
(oldest-first), with the warnings logged. -/
def getCommitShas (logOutput : String) (maxCommits : Nat) : List String × List String :=
  if logOutput = "" then ([], [])
  else
    let commits := parseCommitList logOutput
    if maxCommits < commits.length then
      (commits.drop (commits.length - maxCommits),
       ["Found " ++ toString commits.length ++
        " commits; truncating to the most recent " ++ toString maxCommits ++ "."])
    else (commits, [])

/-- Function `buildPrompt` from `lib.ts`: the deterministic rendering of the tag
pair, commit blocks and optional auxiliary notes. -/
def buildPrompt (currentTag previousTag : String) (commits : List CommitData)
    (githubNotes : String) : String :=
  let header := joinSep "\n"
    [ "Release tag: " ++ currentTag
    , if previousTag ≠ "" then "Previous tag: " ++ previousTag else "Previous tag: (none)"
    , "Commit count: " ++ toString commits.length
    , "" ]
  let commitBlocks :=
    if commits ≠ [] then commits.map formatCommitBlock
    else
      [ "No commits were found between the previous and current tag."
      , "Write a short placeholder release note that explains there are no code changes." ]
  let prompt := header ++ joinSep "\n\n" commitBlocks
  if githubNotes ≠ "" then
    prompt ++ "\n\nGitHub auto-generated notes (extra context, do not quote verbatim):\n"
      ++ githubNotes
  else prompt

/-- One item of a structured Responses-API output list. -/
structure ResponseItem where
  type : String
  text : Option String
deriving DecidableEq, Repr

/-- A summarizer response: an optional flat text field and an optional
structured output list (the two shapes `extractResponseText` tolerates). -/
structure ModelResponse where
  output_text : Option String
  output : Option (List ResponseItem)
deriving DecidableEq, Repr

/-- Function `extractResponseText` from `lib.ts`. -/
def extractResponseText (response : ModelResponse) : String :=
  let fromOutput :=
    match response.output with
    | some items =>
      let textItems := ((items.filter (fun item => item.type = "output_text")).map
        (fun item => item.text)).filterMap id
      if textItems ≠ [] then joinSep "\n" textItems else ""
    | none => ""
  match response.output_text with
  | some t => if t ≠ "" then t else fromOutput
  | none => fromOutput

/-- Function `generateResponseText` from the action entry point: submit once to
the summarizer (modelled as the stream of responses successive calls
would receive), fail when the extracted text trims to empty.  The `Nat`
component counts the summarizer calls made. -/
def generateResponseText (client : Nat → ModelResponse) (label : String) :
    Except String String × Nat :=
  let response := client 0
  let text := jsTrim (extractResponseText response)
  (if text = "" then
    .error ("Model response did not include text output (" ++ label ++ ").")
   else .ok text, 1)

/-- The bookkeeping size the planner tracks for a chunk: each block's
length plus the 2-character separator allowance. -/
def blockSizes2 (ch : List CommitData) : Nat :=
  (ch.map (fun c => (formatCommitBlock c).length + 2)).sum

/-- The serialized size of a chunk: the length of its commit blocks
joined with the `"\n\n"` separator (as the per-chunk prompt body is). -/
def chunkSerializedSize (ch : List CommitData) : Nat :=
  (joinSep "\n\n" (ch.map formatCommitBlock)).length

/-- The size property every produced chunk satisfies: within budget, or a
singleton holding a maximally reduced record (all diff lines gone) whose
block alone exceeds the budget. -/
def chunkSizeOK (B : Nat) (ch : List CommitData) : Prop :=
  chunkSerializedSize ch ≤ B
    ∨ ∃ c, ch = [c] ∧ B < (formatCommitBlock c).length ∧ c.diffLines = []

/-- The invariant the packing loop maintains for the open chunk. -/
def chunkInv (B : Nat) (current : List CommitData) : Prop :=
  current = [] ∨ blockSizes2 current ≤ B
    ∨ ∃ c, current = [c] ∧ ((formatCommitBlock c).length ≤ B ∨ c.diffLines = [])

/-! ### Helper lemmas -/

theorem slice0_length (s : String) (n : Nat) : (slice0 s n).length = min n s.length := by
  show (s.data.take n).length = min n s.data.length
  exact List.length_take n s.data

theorem joinSep_cons_length (sep x : String) (l : List String) :
    (joinSep sep (x :: l)).length
      = x.length + (l.map (fun s => sep.length + s.length)).sum := by
  induction l generalizing x with
  | nil => simp [joinSep]
  | cons y rest ih =>
    simp only [joinSep, String.length_append, ih, List.map_cons, List.sum_cons]
    omega

theorem blockSizes2_append (l₁ l₂ : List CommitData) :
    blockSizes2 (l₁ ++ l₂) = blockSizes2 l₁ + blockSizes2 l₂ := by
  simp only [blockSizes2, List.map_append, List.sum_append]

theorem blockSizes2_singleton (c : CommitData) :
    blockSizes2 [c] = (formatCommitBlock c).length + 2 := by
  simp [blockSizes2]

theorem chunkSerializedSize_singleton (c : CommitData) :
    chunkSerializedSize [c] = (formatCommitBlock c).length := by
  simp [chunkSerializedSize, joinSep]

theorem chunkSerializedSize_add_two (ch : List CommitData) (h : ch ≠ []) :
    chunkSerializedSize ch + 2 = blockSizes2 ch := by
  cases ch with
  | nil => exact absurd rfl h
  | cons c tl =>
    have hsum : ∀ tl : List CommitData,
        ((tl.map formatCommitBlock).map (fun s => ("\n\n" : String).length + s.length)).sum
          = (tl.map (fun x => (formatCommitBlock x).length + 2)).sum := by
      intro tl
      induction tl with
      | nil => rfl
      | cons a t iht =>
        simp only [List.map_cons, List.sum_cons, iht]
        have hsep : ("\n\n" : String).length = 2 := rfl
        omega
    have := hsum tl
    simp only [chunkSerializedSize, blockSizes2, List.map_cons, joinSep_cons_length,
      List.sum_cons] at this ⊢
    omega

theorem dropLoop_drop (sha m : String) (B : Nat) (r : List String) :
    ∃ k, (dropLoop sha m B r).1 = (r.drop k).reverse := by
  induction r with
  | nil => exact ⟨0, rfl⟩
  | cons x rest ih =>
    rw [dropLoop]
    split
    · obtain ⟨k, hk⟩ := ih
      exact ⟨k + 1, by simpa using hk⟩
    · exact ⟨0, rfl⟩

theorem dropLoop_zero_eq (sha m : String) (B : Nat) (r : List String)
    (h : (dropLoop sha m B r).2 = 0) : (dropLoop sha m B r).1 = r.reverse := by
  cases r with
  | nil => rfl
  | cons x rest =>
    rw [dropLoop] at h ⊢
    by_cases hc : B < (formatCommitBlock ⟨sha, m, (x :: rest).reverse⟩).length
    · rw [if_pos hc] at h
      simp at h
    · rw [if_neg hc]

theorem truncateCommit_sha (c : CommitData) (B : Nat) :
    (truncateCommit c B).1.sha = c.sha := rfl

theorem truncateCommit_block_or_empty (c : CommitData) (B : Nat) :
    (formatCommitBlock (truncateCommit c B).1).length ≤ B
      ∨ (truncateCommit c B).1.diffLines = [] := by
  by_cases hf : B < (formatCommitBlock
      ⟨c.sha, truncMsg1 c B, (truncDropped c B).1⟩).length
  · right
    simp [truncateCommit, if_pos hf]
  · left
    have h1 : (truncateCommit c B).1 = ⟨c.sha, truncMsg1 c B, (truncDropped c B).1⟩ := by
      simp [truncateCommit, hf]
    rw [h1]
    omega

theorem truncateCommit_diffLines_take (c : CommitData) (B : Nat) :
    ∃ k, (truncateCommit c B).1.diffLines = c.diffLines.take k := by
  obtain ⟨k, hk⟩ := dropLoop_drop c.sha (truncMsg1 c B) B c.diffLines.reverse
  have hd : (truncDropped c B).1 = c.diffLines.take (c.diffLines.length - k) := by
    rw [truncDropped, hk, ← List.rdrop_eq_reverse_drop_reverse, List.rdrop]
  by_cases hf : B < (formatCommitBlock ⟨c.sha, truncMsg1 c B, (truncDropped c B).1⟩).length
  · exact ⟨0, by simp [truncateCommit, if_pos hf]⟩
  · refine ⟨c.diffLines.length - k, ?_⟩
    have h1 : (truncateCommit c B).1 = ⟨c.sha, truncMsg1 c B, (truncDropped c B).1⟩ := by
      simp [truncateCommit, hf]
    rw [h1, ← hd]

theorem truncateCommit_message_chain (c : CommitData) (B : Nat) :
    ∃ m₁, (m₁ = c.message
        ∨ (max 200 (B / 4) < c.message.length ∧ m₁ = trimText c.message (max 200 (B / 4))))
      ∧ ((truncateCommit c B).1.message = m₁
        ∨ (truncateCommit c B).1.message = trimText m₁ (max 50 (B - 200))) := by
  refine ⟨truncMsg1 c B, ?_, ?_⟩
  · rw [truncMsg1]
    by_cases hm : max 200 (B / 4) < c.message.length
    · exact Or.inr ⟨hm, by rw [if_pos hm]⟩
    · exact Or.inl (by rw [if_neg hm])
  · by_cases hf : B < (formatCommitBlock ⟨c.sha, truncMsg1 c B, (truncDropped c B).1⟩).length
    · exact Or.inr (by simp [truncateCommit, if_pos hf])
    · exact Or.inl (by simp [truncateCommit, hf])

theorem truncateCommit_warnings (c : CommitData) (B : Nat) :
    ((truncateCommit c B).2 = [] ∨ (truncateCommit c B).2 = [truncateNoticeFor c.sha])
      ∧ ((truncateCommit c B).2 = [] → (truncateCommit c B).1 = c) := by
  constructor
  · by_cases hch : (max 200 (B / 4) < c.message.length) ∨ (truncDropped c B).2 ≠ 0
        ∨ (B < (formatCommitBlock ⟨c.sha, truncMsg1 c B, (truncDropped c B).1⟩).length
            ∧ (truncDropped c B).1 ≠ [])
        ∨ B < (formatCommitBlock ⟨c.sha, truncMsg1 c B, (truncDropped c B).1⟩).length
    · exact Or.inr (by simp only [truncateCommit]; rw [if_pos hch])
    · exact Or.inl (by simp only [truncateCommit]; rw [if_neg hch])
  · intro hw
    by_cases hch : (max 200 (B / 4) < c.message.length) ∨ (truncDropped c B).2 ≠ 0
        ∨ (B < (formatCommitBlock ⟨c.sha, truncMsg1 c B, (truncDropped c B).1⟩).length
            ∧ (truncDropped c B).1 ≠ [])
        ∨ B < (formatCommitBlock ⟨c.sha, truncMsg1 c B, (truncDropped c B).1⟩).length
    · exfalso
      have : (truncateCommit c B).2 = [truncateNoticeFor c.sha] := by
        simp only [truncateCommit]; rw [if_pos hch]
      rw [hw] at this
      exact List.cons_ne_nil _ _ this.symm
    · push_neg at hch
      obtain ⟨hm, hk, _, hf⟩ := hch
      have hm' : ¬(max 200 (B / 4) < c.message.length) := Nat.not_lt.mpr hm
      have hf' : ¬(B < (formatCommitBlock
          ⟨c.sha, truncMsg1 c B, (truncDropped c B).1⟩).length) := Nat.not_lt.mpr hf
      have hm1 : truncMsg1 c B = c.message := by rw [truncMsg1, if_neg hm']
      have hd1 : (truncDropped c B).1 = c.diffLines := by
        rw [truncDropped, dropLoop_zero_eq _ _ _ _ hk, List.reverse_reverse]
      have h1 : (truncateCommit c B).1 = ⟨c.sha, truncMsg1 c B, (truncDropped c B).1⟩ := by
        simp [truncateCommit, hf']
      rw [h1, hm1, hd1]

/-! ### Chunk-planner lemmas -/

theorem chunkCandidate_sha (B : Nat) (c : CommitData) :
    (chunkCandidate B c).1.sha = c.sha := by
  rw [chunkCandidate]
  split
  · exact truncateCommit_sha c B
  · rfl

theorem chunkCandidate_block_or_empty (B : Nat) (c : CommitData) :
    (formatCommitBlock (chunkCandidate B c).1).length ≤ B
      ∨ (chunkCandidate B c).1.diffLines = [] := by
  rw [chunkCandidate]
  split
  · exact truncateCommit_block_or_empty c B
  · left
    show (formatCommitBlock c).length ≤ B
    omega

theorem chunkCandidate_cases (B : Nat) (c : CommitData) :
    ((chunkCandidate B c).1 = c ∧ (formatCommitBlock c).length ≤ B)
      ∨ ((chunkCandidate B c).1 = (truncateCommit c B).1
          ∧ B < (formatCommitBlock c).length) := by
  rw [chunkCandidate]
  split
  · exact Or.inr ⟨rfl, by omega⟩
  · exact Or.inl ⟨rfl, by omega⟩

theorem chunkGo_flatten (B : Nat) (rest : List CommitData) :
    ∀ (current : List CommitData) (size : Nat),
      (chunkGo B rest current size).1.flatten
        = current ++ rest.map (fun c => (chunkCandidate B c).1) := by
  induction rest with
  | nil =>
    intro current size
    rw [chunkGo]
    split
    · simp_all
    · simp
  | cons commit rest ih =>
    intro current size
    rw [chunkGo]
    split
    · simp [ih]
    · simp [ih]

theorem chunkGo_chunks_nonempty (B : Nat) (rest : List CommitData) :
    ∀ (current : List CommitData) (size : Nat),
      ∀ ch ∈ (chunkGo B rest current size).1, ch ≠ [] := by
  induction rest with
  | nil =>
    intro current size ch hch
    rw [chunkGo] at hch
    split at hch
    · simp at hch
    · simp at hch
      subst hch
      assumption
  | cons commit rest ih =>
    intro current size ch hch
    rw [chunkGo] at hch
    split at hch
    case isTrue h =>
      simp only [List.mem_cons] at hch
      rcases hch with rfl | hm
      · exact h.1
      · exact ih _ _ _ hm
    case isFalse h =>
      exact ih _ _ _ hch

theorem chunkInv_sizeOK (B : Nat) (current : List CommitData)
    (h : current ≠ []) (hinv : chunkInv B current) : chunkSizeOK B current := by
  rcases hinv with rfl | hs | ⟨c, rfl, hc⟩
  · exact absurd rfl h
  · left
    have := chunkSerializedSize_add_two current h
    omega
  · rcases hc with hb | hd
    · left
      rw [chunkSerializedSize_singleton]
      exact hb
    · by_cases hb : (formatCommitBlock c).length ≤ B
      · left
        rw [chunkSerializedSize_singleton]
        exact hb
      · exact Or.inr ⟨c, rfl, by omega, hd⟩

theorem chunkInv_single (B : Nat) (c : CommitData) : chunkInv B [(chunkCandidate B c).1] := by
  rcases chunkCandidate_block_or_empty B c with hb | hd
  · exact Or.inr (Or.inr ⟨_, rfl, Or.inl hb⟩)
  · exact Or.inr (Or.inr ⟨_, rfl, Or.inr hd⟩)

theorem chunkGo_sizes (B : Nat) (rest : List CommitData) :
    ∀ (current : List CommitData) (size : Nat),
      size = blockSizes2 current → chunkInv B current →
      ∀ ch ∈ (chunkGo B rest current size).1, chunkSizeOK B ch := by
  induction rest with
  | nil =>
    intro current size hsz hinv ch hch
    rw [chunkGo] at hch
    split at hch
    · simp at hch
    · simp at hch
      subst hch
      exact chunkInv_sizeOK B ch (by assumption) hinv
  | cons commit rest ih =>
    intro current size hsz hinv ch hch
    rw [chunkGo] at hch
    split at hch
    case isTrue h =>
      simp only [List.mem_cons] at hch
      rcases hch with rfl | hm
      · exact chunkInv_sizeOK B ch h.1 hinv
      · refine ih _ _ ?_ (chunkInv_single B commit) _ hm
        rw [blockSizes2_singleton]
    case isFalse h =>
      rcases not_and_or.mp h with hc | hsize
      · have hcur : current = [] := not_not.mp hc
        subst hcur
        refine ih _ _ ?_ (by simpa using chunkInv_single B commit) _ (by simpa using hch)
        rw [hsz]
        simp [blockSizes2_singleton, blockSizes2]
      · have hle : size + (formatCommitBlock (chunkCandidate B commit).1).length + 2 ≤ B :=
          Nat.not_lt.mp hsize
        refine ih _ _ ?_ ?_ _ hch
        · rw [blockSizes2_append, blockSizes2_singleton, hsz]
          omega
        · right; left
          rw [blockSizes2_append, blockSizes2_singleton, ← hsz]
          omega

/-! ### Claim theorems -/

/-- C1 counterexample: a single commit whose block (120 characters) exceeds
the budget 100 is stored in modified form (its diff line is dropped by the
oversized-record reduction), so the concatenation of the produced chunks is
not the original sequence — refuting "no modification of any record". -/
theorem chunkCommits_record_modified_counterexample :
    (chunkCommits [⟨"abc1234def", "m", ["+0123456789012345678"]⟩] 100).1.flatten
      ≠ [⟨"abc1234def", "m", ["+0123456789012345678"]⟩] := by decide

/-- C1 (amended): for every commit sequence and budget, the chunks produced
by `chunkCommits` concatenate, in order, to the original sequence with each
record either kept verbatim (exactly when its block fits the budget) or
replaced by its `truncateCommit` reduction — no drops, no reordering, no
duplication; and every chunk's serialized size is at most the budget except
a chunk holding a single maximally reduced record (all diff lines removed)
whose block alone still exceeds the budget. -/
theorem chunkCommits_packing (commits : List CommitData) (maxChars : Nat) :
    ((chunkCommits commits maxChars).1.flatten
        = commits.map (fun c => (chunkCandidate maxChars c).1))
      ∧ (∀ c, ((chunkCandidate maxChars c).1 = c ∧ (formatCommitBlock c).length ≤ maxChars)
          ∨ ((chunkCandidate maxChars c).1 = (truncateCommit c maxChars).1
              ∧ maxChars < (formatCommitBlock c).length))
      ∧ (∀ ch ∈ (chunkCommits commits maxChars).1, chunkSizeOK maxChars ch) := by
  refine ⟨?_, fun c => chunkCandidate_cases maxChars c, ?_⟩
  · rw [chunkCommits]
    have := chunkGo_flatten maxChars commits [] 0
    simpa using this
  · intro ch hch
    exact chunkGo_sizes maxChars commits [] 0 (by simp [blockSizes2]) (Or.inl rfl) ch hch

/-- C1 witness: the packing theorem applied to a concrete one-commit run
within budget. -/
theorem chunkCommits_packing_witness :
    chunkSizeOK 1000 [⟨"abc1234def", "m", ["+x"]⟩] :=
  (chunkCommits_packing [⟨"abc1234def", "m", ["+x"]⟩] 1000).2.2
    [⟨"abc1234def", "m", ["+x"]⟩] (by decide)

/-- C10: every chunk produced by `chunkCommits` is non-empty, and the sha
sequence of the concatenated chunks equals the original sha sequence
exactly — the oversized-record reduction never changes a sha and records
are never dropped, duplicated or reordered. -/
theorem chunkCommits_sha_sequence (commits : List CommitData) (maxChars : Nat) :
    (∀ ch ∈ (chunkCommits commits maxChars).1, ch ≠ [])
      ∧ ((chunkCommits commits maxChars).1.flatten.map CommitData.sha
          = commits.map CommitData.sha)
      ∧ (∀ c, ((chunkCandidate maxChars c).1).sha = c.sha) := by
  refine ⟨?_, ?_, fun c => chunkCandidate_sha maxChars c⟩
  · intro ch hch
    exact chunkGo_chunks_nonempty maxChars commits [] 0 ch hch
  · rw [chunkCommits]
    rw [chunkGo_flatten maxChars commits [] 0]
    simp only [List.nil_append, List.map_map]
    exact List.map_congr_left (fun c _ => chunkCandidate_sha maxChars c)

/-- C10 witness: the sha-sequence theorem applied to a concrete run. -/
theorem chunkCommits_sha_sequence_witness :
    ([⟨"abc1234def", "m", ["+x"]⟩] : List CommitData) ≠ [] :=
  (chunkCommits_sha_sequence [⟨"abc1234def", "m", ["+x"]⟩] 1000).1
    [⟨"abc1234def", "m", ["+x"]⟩] (by decide)

/-- C4 counterexample: on a commit needing several reduction steps (message
truncation and two diff-line drops), `truncateCommit` emits exactly one
truncation notice, not one notice per reduction step. -/
theorem truncateCommit_single_notice_counterexample :
    ((truncateCommit ⟨"abc1234def", String.mk (List.replicate 210 'a'),
        ["+123456789012345678901234567890", "+abcdefghijklmnopqrstuvwxyz1234"]⟩ 250).1.message
      ≠ String.mk (List.replicate 210 'a'))
    ∧ (truncateCommit ⟨"abc1234def", String.mk (List.replicate 210 'a'),
        ["+123456789012345678901234567890", "+abcdefghijklmnopqrstuvwxyz1234"]⟩ 250).1.diffLines = []
    ∧ (truncateCommit ⟨"abc1234def", String.mk (List.replicate 210 'a'),
        ["+123456789012345678901234567890", "+abcdefghijklmnopqrstuvwxyz1234"]⟩ 250).2.length = 1 := by
  decide

/-- C4 (amended): `truncateCommit` keeps the commit's sha; it reduces the
message only by the quarter-budget trim (floor 200) possibly followed by
the final trim (floor 50), in that order; it removes diff lines only from
the end (the result's diff lines are a prefix of the original, so the drop
loop runs at most `diffLines.length` iterations and the reduction
terminates); and it emits at most one non-fatal notice — exactly the single
notice naming the commit whenever the record was reduced (a single notice
for the whole reduction, not one per step). -/
theorem truncateCommit_policy (c : CommitData) (maxChars : Nat) :
    ((truncateCommit c maxChars).1.sha = c.sha)
      ∧ (∃ k, (truncateCommit c maxChars).1.diffLines = c.diffLines.take k)
      ∧ (∃ m₁, (m₁ = c.message
            ∨ (max 200 (maxChars / 4) < c.message.length
                ∧ m₁ = trimText c.message (max 200 (maxChars / 4))))
          ∧ ((truncateCommit c maxChars).1.message = m₁
            ∨ (truncateCommit c maxChars).1.message = trimText m₁ (max 50 (maxChars - 200))))
      ∧ ((truncateCommit c maxChars).2 = []
          ∨ (truncateCommit c maxChars).2 = [truncateNoticeFor c.sha])
      ∧ ((truncateCommit c maxChars).1 ≠ c
          → (truncateCommit c maxChars).2 = [truncateNoticeFor c.sha]) := by
  refine ⟨truncateCommit_sha c maxChars, truncateCommit_diffLines_take c maxChars,
    truncateCommit_message_chain c maxChars, (truncateCommit_warnings c maxChars).1, ?_⟩
  intro hne
  rcases (truncateCommit_warnings c maxChars).1 with hw | hw
  · exact absurd ((truncateCommit_warnings c maxChars).2 hw) hne
  · exact hw

/-- C4 witness: the policy theorem applied to a concrete over-budget commit,
discharging the "record changed" hypothesis. -/
theorem truncateCommit_policy_witness :
    (truncateCommit ⟨"abc1234def", "m", ["+x"]⟩ 50).2
      = [truncateNoticeFor "abc1234def"] :=
  (truncateCommit_policy ⟨"abc1234def", "m", ["+x"]⟩ 50).2.2.2.2 (by decide)

/-- C2 counterexample: a kept diff content line of 301 characters, under a
file header, is stored by `extractDiffLines` as a 306-character entry (the
`"f.ts: "` path prefix is added after the 300-character trim), refuting
"the line stored ... has length exactly K". -/
theorem extractDiffLines_stored_length_counterexample :
    extractDiffLines ("diff --git a/f.ts b/f.ts\n+" ++ String.mk (List.replicate 300 'x'))
        10 (.ok "") (some ["f.ts"])
      = .ok ["f.ts: " ++ "+" ++ String.mk (List.replicate 296 'x') ++ "..."]
    ∧ ("f.ts: " ++ "+" ++ String.mk (List.replicate 296 'x') ++ "...").length = 306 := by
  decide

/-- C2 (amended): a kept diff content line longer than `MAX_LINE_LENGTH` is
stored as the current file's `"path: "` prefix (when a file is current)
followed by the line's first `MAX_LINE_LENGTH - 3` characters and the
three-character ellipsis, so the portion after the prefix — the trimmed
line — has length exactly `MAX_LINE_LENGTH` and ends with the ellipsis;
a line within the cap is stored untouched after the same prefix. -/
theorem storedDiffLine_rule (file line : String) :
    (MAX_LINE_LENGTH < line.length →
        contentEntry file line
            = (if file = "" then "" else file ++ ": ")
              ++ (slice0 line (MAX_LINE_LENGTH - 3) ++ "...")
          ∧ (trimDiffLine line).length = MAX_LINE_LENGTH
          ∧ ∃ p, trimDiffLine line = p ++ "...")
      ∧ (line.length ≤ MAX_LINE_LENGTH →
          contentEntry file line = (if file = "" then "" else file ++ ": ") ++ line) := by
  constructor
  · intro h
    have htrim : trimDiffLine line = slice0 line (MAX_LINE_LENGTH - 3) ++ "..." := by
      rw [trimDiffLine, if_pos h]
    refine ⟨?_, ?_, ⟨_, htrim⟩⟩
    · rw [contentEntry, htrim]
      by_cases hf : file = "" <;> simp [hf]
    · rw [htrim, String.length_append, slice0_length]
      have h3 : ("..." : String).length = 3 := rfl
      rw [MAX_LINE_LENGTH] at h ⊢
      rw [Nat.min_eq_left (by omega), h3]
  · intro h
    have htrim : trimDiffLine line = line := by
      rw [trimDiffLine, if_neg (by omega)]
    rw [contentEntry, htrim]
    by_cases hf : file = "" <;> simp [hf]

/-- C2 witness: the per-line storage rule applied to a concrete
301-character line with current file `"f.ts"`. -/
theorem storedDiffLine_rule_witness :
    contentEntry "f.ts" (String.mk (List.replicate 301 'x'))
        = (if ("f.ts" : String) = "" then "" else "f.ts" ++ ": ")
          ++ (slice0 (String.mk (List.replicate 301 'x')) (MAX_LINE_LENGTH - 3) ++ "...")
      ∧ (trimDiffLine (String.mk (List.replicate 301 'x'))).length = MAX_LINE_LENGTH
      ∧ ∃ p, trimDiffLine (String.mk (List.replicate 301 'x')) = p ++ "..." :=
  (storedDiffLine_rule "f.ts" (String.mk (List.replicate 301 'x'))).1 (by decide)

/-- C3: with no override, `resolvePreviousTag` fails with the no-tags error
on an empty tag list; fails with the tag-not-found error naming the current
tag when it is absent; returns the tag immediately after the current tag in
the creation-date-descending list when there is one; and returns the `""`
"no previous tag" sentinel when the current tag is last. -/
theorem resolvePreviousTag_spec (tags : List String) (T : String) :
    (tags = [] →
        resolvePreviousTag T "" false tags
          = (.error "No tags found locally. Ensure actions/checkout uses fetch-depth: 0.", []))
      ∧ (T ∉ tags → tags ≠ [] →
          resolvePreviousTag T "" false tags
            = (.error ("Tag " ++ T ++ " not found in local tag list. Ensure tags are fetched."),
               []))
      ∧ (T ∈ tags → tags.indexOf T + 1 < tags.length →
          resolvePreviousTag T "" false tags = (.ok (tags.getD (tags.indexOf T + 1) ""), []))
      ∧ (T ∈ tags → tags.indexOf T + 1 = tags.length →
          resolvePreviousTag T "" false tags
            = (.ok "", ["No previous tag found; comparing against the empty tree."])) := by
  have hov : ¬(("" : String) ≠ "") := by simp
  refine ⟨?_, ?_, ?_, ?_⟩
  · intro h
    rw [resolvePreviousTag, if_neg hov, if_pos h]
  · intro hT h
    have hidx : tags.indexOf T = tags.length := List.indexOf_eq_length.mpr hT
    rw [resolvePreviousTag, if_neg hov, if_neg h, if_pos hidx]
  · intro hT hlt
    have hne : tags ≠ [] := by
      intro h
      subst h
      simp at hT
    have hidx : tags.indexOf T ≠ tags.length :=
      Nat.ne_of_lt (List.indexOf_lt_length.mpr hT)
    rw [resolvePreviousTag, if_neg hov, if_neg hne, if_neg hidx, if_neg (by omega)]
  · intro hT heq
    have hne : tags ≠ [] := by
      intro h
      subst h
      simp at hT
    have hidx : tags.indexOf T ≠ tags.length :=
      Nat.ne_of_lt (List.indexOf_lt_length.mpr hT)
    rw [resolvePreviousTag, if_neg hov, if_neg hne, if_neg hidx, if_pos (by omega)]

/-- C3 witness: the resolver on the two-tag list `["v1.1.0", "v1.0.0"]`:
`v1.1.0` resolves to the next older tag `v1.0.0`, and the last tag
`v1.0.0` resolves to the `""` sentinel. -/
theorem resolvePreviousTag_spec_witness :
    resolvePreviousTag "v1.1.0" "" false ["v1.1.0", "v1.0.0"]
        = (.ok (["v1.1.0", "v1.0.0"].getD (["v1.1.0", "v1.0.0"].indexOf "v1.1.0" + 1) ""), [])
      ∧ resolvePreviousTag "v1.0.0" "" false ["v1.1.0", "v1.0.0"]
        = (.ok "", ["No previous tag found; comparing against the empty tree."]) :=
  ⟨(resolvePreviousTag_spec ["v1.1.0", "v1.0.0"] "v1.1.0").2.2.1 (by decide) (by decide),
   (resolvePreviousTag_spec ["v1.1.0", "v1.0.0"] "v1.0.0").2.2.2 (by decide) (by decide)⟩

theorem buildOneCommit_diffLines_shape (env : GitEnv) (maxDiffLines : Nat)
    (extensions : List String) (sha : String) :
    ∃ cl, (buildOneCommit env maxDiffLines extensions sha).1.diffLines
      = (cl ++ nonSourceEntriesOf env extensions sha).take maxDiffLines :=
  ⟨_, rfl⟩

/-- C5 counterexample: when the diff query itself fails (tool error), the
substituted lines are `path: source change (diff omitted)` summaries, not
the name-status listing (`path: modified`) the claim describes — the
name-status fallback is used only when extraction yields no lines. -/
theorem buildCommitData_error_fallback_counterexample :
    (buildCommitData ⟨fun _ => "msg", fun _ => "1\t1\ta.ts", fun _ => .error "boom",
        fun _ => .ok "M\ta.ts"⟩ ["sha1"] 10 DEFAULT_SOURCE_EXTENSIONS).1
      = [⟨"sha1", "msg", ["a.ts: source change (diff omitted)"]⟩]
    ∧ fallbackFileChanges (.ok "M\ta.ts") 10 = .ok ["a.ts: modified"]
    ∧ (["a.ts: source change (diff omitted)"] : List String) ≠ ["a.ts: modified"] := by
  decide

/-- C5 (amended): diff-extraction failure never propagates out of
`buildCommitData` (the function is total and still returns a record for
every sha): on a tool error it substitutes the `path: source change (diff
omitted)` summaries for the source paths and logs a warning; only when
extraction succeeds but yields no lines does it substitute the name-status
listing produced by `fallbackFileChanges`. -/
theorem buildCommitData_diff_fallbacks (env : GitEnv) (maxDiffLines : Nat)
    (extensions : List String) (sha : String) :
    (∀ e, env.diffResult sha = .error e → sourcePathsOf env extensions sha ≠ [] →
        (buildOneCommit env maxDiffLines extensions sha).1.diffLines
            = (((sourcePathsOf env extensions sha).take maxDiffLines).map summarizeSource
                ++ nonSourceEntriesOf env extensions sha).take maxDiffLines
          ∧ (buildOneCommit env maxDiffLines extensions sha).2
            = ["Failed to read diff for " ++ slice0 sha 7 ++ ": " ++ e
                ++ ". Falling back to file summary."])
      ∧ (∀ diff fl, env.diffResult sha = .ok diff →
          extractDiffGo (some (sourcePathsOf env extensions sha)) maxDiffLines
              (splitLines diff) "" true [] = [] →
          fallbackFileChanges (env.nameStatusResult sha) maxDiffLines = .ok fl →
          sourcePathsOf env extensions sha ≠ [] →
          (buildOneCommit env maxDiffLines extensions sha).1.diffLines
            = (fl ++ nonSourceEntriesOf env extensions sha).take maxDiffLines)
      ∧ ((buildCommitData env [sha] maxDiffLines extensions).1
          = [(buildOneCommit env maxDiffLines extensions sha).1])
      ∧ ((buildOneCommit env maxDiffLines extensions sha).1.sha = sha) := by
  refine ⟨?_, ?_, by simp [buildCommitData], rfl⟩
  · intro e he hsp
    rw [buildOneCommit]
    simp only [if_neg hsp, he]
    constructor <;> first | rfl | trivial
  · intro diff fl hok hempty hfb hsp
    rw [buildOneCommit]
    simp only [if_neg hsp, hok]
    simp only [extractDiffLines, hempty, if_pos rfl, hfb]
    rfl

/-- C5 witness: the fallback theorem applied to a concrete failing diff
query over one source file and one commit. -/
theorem buildCommitData_diff_fallbacks_witness :
    (buildOneCommit ⟨fun _ => "msg", fun _ => "1\t1\ta.ts", fun _ => .error "boom",
          fun _ => .ok "M\ta.ts"⟩ 10 DEFAULT_SOURCE_EXTENSIONS "sha1").1.diffLines
        = (((sourcePathsOf ⟨fun _ => "msg", fun _ => "1\t1\ta.ts", fun _ => .error "boom",
              fun _ => .ok "M\ta.ts"⟩ DEFAULT_SOURCE_EXTENSIONS "sha1").take 10).map summarizeSource
            ++ nonSourceEntriesOf ⟨fun _ => "msg", fun _ => "1\t1\ta.ts", fun _ => .error "boom",
              fun _ => .ok "M\ta.ts"⟩ DEFAULT_SOURCE_EXTENSIONS "sha1").take 10
      ∧ (buildOneCommit ⟨fun _ => "msg", fun _ => "1\t1\ta.ts", fun _ => .error "boom",
          fun _ => .ok "M\ta.ts"⟩ 10 DEFAULT_SOURCE_EXTENSIONS "sha1").2
        = ["Failed to read diff for " ++ slice0 "sha1" 7 ++ ": " ++ "boom"
            ++ ". Falling back to file summary."] :=
  (buildCommitData_diff_fallbacks ⟨fun _ => "msg", fun _ => "1\t1\ta.ts", fun _ => .error "boom",
      fun _ => .ok "M\ta.ts"⟩ 10 DEFAULT_SOURCE_EXTENSIONS "sha1").1 "boom" rfl (by decide)

/-- C6: when the chronological commit list exceeds the cap, `getCommitShas`
returns exactly the last `maxCommits` elements (dropping from the oldest
end, order preserved) and logs one truncation notice; an empty range yields
the empty sequence, not an error. -/
theorem getCommitShas_spec (logOutput : String) (maxCommits : Nat) :
    (maxCommits < (parseCommitList logOutput).length →
        (getCommitShas logOutput maxCommits).1
            = (parseCommitList logOutput).drop
                ((parseCommitList logOutput).length - maxCommits)
          ∧ (getCommitShas logOutput maxCommits).1.length = maxCommits
          ∧ (getCommitShas logOutput maxCommits).2.length = 1)
      ∧ (logOutput = "" → getCommitShas logOutput maxCommits = ([], []))
      ∧ (¬maxCommits < (parseCommitList logOutput).length → logOutput ≠ "" →
          (getCommitShas logOutput maxCommits).1 = parseCommitList logOutput
            ∧ (getCommitShas logOutput maxCommits).2 = []) := by
  refine ⟨?_, ?_, ?_⟩
  · intro h
    have hne : logOutput ≠ "" := by
      intro he
      rw [he, show parseCommitList "" = [] from rfl] at h
      simp at h
    rw [getCommitShas, if_neg hne, if_pos h]
    refine ⟨rfl, ?_, rfl⟩
    rw [List.length_drop]
    omega
  · intro h
    rw [getCommitShas, if_pos h]
  · intro h hne
    rw [getCommitShas, if_neg hne, if_neg h]
    exact ⟨rfl, rfl⟩

/-- C6 witness: three commits capped at two — the two most recent survive,
in order, with one notice logged. -/
theorem getCommitShas_spec_witness :
    (getCommitShas "sha1\nsha2\nsha3" 2).1
        = (parseCommitList "sha1\nsha2\nsha3").drop
            ((parseCommitList "sha1\nsha2\nsha3").length - 2)
      ∧ (getCommitShas "sha1\nsha2\nsha3" 2).1.length = 2
      ∧ (getCommitShas "sha1\nsha2\nsha3" 2).2.length = 1 :=
  (getCommitShas_spec "sha1\nsha2\nsha3" 2).1 (by decide)

/-- C7: every record produced by `buildCommitData` carries at most
`maxDiffLines` diff lines, and the stored lines are the cap applied to the
diff content lines followed by the non-source/binary summaries — content
lines take priority, summaries are appended before the cap is applied. -/
theorem buildCommitData_line_cap (env : GitEnv) (shas : List String) (maxDiffLines : Nat)
    (extensions : List String) :
    (∀ c ∈ (buildCommitData env shas maxDiffLines extensions).1,
        c.diffLines.length ≤ maxDiffLines)
      ∧ (∀ sha, ∃ contentLines,
          (buildOneCommit env maxDiffLines extensions sha).1.diffLines
            = (contentLines ++ nonSourceEntriesOf env extensions sha).take maxDiffLines) := by
  constructor
  · intro c hc
    simp only [buildCommitData, List.map_map, List.mem_map] at hc
    obtain ⟨sha, _, rfl⟩ := hc
    obtain ⟨cl, hcl⟩ := buildOneCommit_diffLines_shape env maxDiffLines extensions sha
    simp only [Function.comp_apply, hcl, List.length_take]
    omega
  · intro sha
    exact buildOneCommit_diffLines_shape env maxDiffLines extensions sha

/-- C7 witness: the cap theorem applied to a concrete one-commit run with
cap 5 (one fallback line plus no summaries, well under the cap). -/
theorem buildCommitData_line_cap_witness :
    (⟨"sha1", "m", ["a.ts: modified"]⟩ : CommitData).diffLines.length ≤ 5 :=
  (buildCommitData_line_cap ⟨fun _ => "m", fun _ => "1\t1\ta.ts", fun _ => .ok "",
      fun _ => .ok "M\ta.ts"⟩ ["sha1"] 5 DEFAULT_SOURCE_EXTENSIONS).1
    ⟨"sha1", "m", ["a.ts: modified"]⟩ (by decide)

/-- C8: `buildPrompt` is pure and deterministic — it is a function of its
four inputs only, so equal inputs give byte-identical output strings. -/
theorem buildPrompt_deterministic (currentTag previousTag : String)
    (commits : List CommitData) (githubNotes : String)
    (currentTag' previousTag' : String) (commits' : List CommitData) (githubNotes' : String)
    (h1 : currentTag = currentTag') (h2 : previousTag = previousTag')
    (h3 : commits = commits') (h4 : githubNotes = githubNotes') :
    buildPrompt currentTag previousTag commits githubNotes
      = buildPrompt currentTag' previousTag' commits' githubNotes' := by
  subst h1 h2 h3 h4
  rfl

/-- C8 witness: two invocations on identical concrete inputs coincide. -/
theorem buildPrompt_deterministic_witness :
    buildPrompt "v1.1.0" "v1.0.0" [⟨"abc1234def", "feat: first", ["f.ts: +x"]⟩] ""
      = buildPrompt "v1.1.0" "v1.0.0" [⟨"abc1234def", "feat: first", ["f.ts: +x"]⟩] "" :=
  buildPrompt_deterministic "v1.1.0" "v1.0.0" [⟨"abc1234def", "feat: first", ["f.ts: +x"]⟩] ""
    "v1.1.0" "v1.0.0" [⟨"abc1234def", "feat: first", ["f.ts: +x"]⟩] "" rfl rfl rfl rfl

/-- C9: when the summarizer response for a stage contains no extractable
text (empty after extraction and trimming), `generateResponseText` fails
with the fatal error naming the stage label, and exactly one summarizer
call is made — no retry. -/
theorem generateResponseText_empty_fatal (client : Nat → ModelResponse) (label : String) :
    (jsTrim (extractResponseText (client 0)) = "" →
        generateResponseText client label
          = (.error ("Model response did not include text output (" ++ label ++ ")."), 1))
      ∧ (generateResponseText client label).2 = 1 := by
  constructor
  · intro h
    rw [generateResponseText]
    simp [h]
  · rfl

/-- C9 witness: a response with neither a flat text field nor structured
items fails the `stage-1` batch with the labelled error after one call. -/
theorem generateResponseText_empty_fatal_witness :
    generateResponseText (fun _ => ⟨none, none⟩) "stage-1"
      = (.error ("Model response did not include text output (" ++ "stage-1" ++ ")."), 1) :=
  (generateResponseText_empty_fatal (fun _ => ⟨none, none⟩) "stage-1").1 (by decide)

end Scribe
